import Mathlib

/-!
Shallow embedding of the reservation service
(`src/reservations/routers.py`, `src/encryption.py`) of the
FastAPI-Gestione-Eventi repository.

The relational store is modelled as in-memory lists; each HTTP handler
becomes a pure function from the store (plus the authenticated user id
resolved by the `JWTBearer` dependency) to the new store and an HTTP
outcome.  Raising an `HTTPException` is modelled by the `Except.error`
channel; a value returned by the handler is `Except.ok`.
-/

deriving instance DecidableEq for Except

namespace GestioneEventi

/-- An `Event` row: unique identifier and seat capacity
(`src/events/models.py`, used by the router via `Event.id`,
`Event.capacity`). -/
structure Event where
  id : Nat
  capacity : Nat
deriving Repr, DecidableEq

/-- A `Reservation` row: identifier, owning user id, event id, and the
requested unit count `num_guests` (fields used by the router when
constructing `Reservation(num_guests=..., user_id=..., event_id=...)`). -/
structure Reservation where
  id : Nat
  user_id : Nat
  event_id : Nat
  num_guests : Nat
deriving Repr, DecidableEq

/-- The relational store visible to the reservation router: the event
table, the reservation table, and the next primary key the store will
assign to an inserted reservation. -/
structure DB where
  events : List Event
  reservations : List Reservation
  nextId : Nat
deriving Repr, DecidableEq

/-- The `HTTPException`s raised by the reservation router:
404 "Event not found", 400 "Not enough seats available",
404 "Reservation not found"; `storageFailure` is the generic abort
outcome of a storage fault inside the transactional unit of work. -/
inductive ApiError where
  | eventNotFound
  | capacityExceeded
  | reservationNotFound
  | storageFailure
deriving Repr, DecidableEq

/-- Request body of `POST /reservations`: the `ReservationCreate` schema
carries the target event id and the requested `num_guests` (the fields
the router reads from `payload`). -/
structure ReservationCreate where
  event_id : Nat
  num_guests : Nat
deriving Repr, DecidableEq

/-- The capacity sum computed by `create_reservation` step 4:
`select(Reservation.num_guests).where(Reservation.event_id == event_id)`
followed by `sum(...)`. -/
def eventTotal (resvs : List Reservation) (eid : Nat) : Nat :=
  ((resvs.filter (fun r => r.event_id == eid)).map (fun r => r.num_guests)).sum

/-- Handler `create_reservation` (`routers.py` lines 34-100).  The whole
body runs inside `async with session.begin()`: on any raised exception the
transaction rolls back, so every error path returns the unmodified store.
`fault` models a storage fault striking inside the unit of work
(modelled from the spec: a fault triggers an automatic abort of all
writes and the caller sees a generic `StorageFailure`).  Otherwise: the
event row is selected (with `FOR UPDATE`); a missing event raises 404;
the current total of `num_guests` over reservations of the event is
summed; if `current + payload.num_guests > event.capacity` a 400 is
raised; else the new reservation (owner = the JWT-resolved `user_id`) is
inserted and returned. -/
def create_reservation (fault : Bool) (db : DB) (user_id : Nat)
    (payload : ReservationCreate) : DB × Except ApiError Reservation :=
  if fault then (db, .error .storageFailure)
  else
    match db.events.find? (fun e => e.id == payload.event_id) with
    | none => (db, .error .eventNotFound)
    | some event =>
      let current := eventTotal db.reservations payload.event_id
      if current + payload.num_guests > event.capacity then
        (db, .error .capacityExceeded)
      else
        let newRes : Reservation :=
          { id := db.nextId, user_id := user_id,
            event_id := payload.event_id, num_guests := payload.num_guests }
        ({ db with reservations := db.reservations ++ [newRes],
                   nextId := db.nextId + 1 },
         .ok newRes)

/-- Handler `get_reservations` (`routers.py` lines 23-31):
`select(Reservation).where(Reservation.user_id == user_id)` with
`user_id` resolved from the bearer token by `JWTBearer`. -/
def get_reservations (db : DB) (user_id : Nat) : List Reservation :=
  db.reservations.filter (fun r => r.user_id == user_id)

/-- The ownership-scoped lookup shared by get/update/delete
(`routers.py`): `select(Reservation).where(Reservation.id ==
reservation_id, Reservation.user_id == user_id)` followed by `.first()`. -/
def ownedQuery (db : DB) (reservation_id user_id : Nat) : Option Reservation :=
  db.reservations.find? (fun r => r.id == reservation_id && r.user_id == user_id)

/-- Handler `get_reservation` (`routers.py` lines 103-118): the owned
lookup; `None` raises 404 "Reservation not found". -/
def get_reservation (db : DB) (reservation_id user_id : Nat) :
    Except ApiError Reservation :=
  match ownedQuery db reservation_id user_id with
  | none => .error .reservationNotFound
  | some r => .ok r

/-- A field of the JSON body of `PATCH /reservations/{id}` as sent on the
wire: absent from the body, explicitly `null`, or set to a value. -/
inductive PatchField (α : Type) where
  | absent
  | null
  | set (v : α)
deriving Repr, DecidableEq

/-- Modelled from the spec: the caller-facing `ReservationUpdate` schema
(`src/reservations/schemas.py` is not among the given sources).  The
spec's mutable fields are the unit count, so the patch carries one
optional field `num_guests`, each wire state kept distinct. -/
structure ReservationUpdate where
  num_guests : PatchField Nat
deriving Repr, DecidableEq

/-- Models `payload.model_dump()` for a pydantic model whose optional
field defaults to `None`: a field absent from the request body and a
field explicitly sent as `null` both dump to `None`; only a set value
survives as itself. -/
def dumpField : PatchField Nat → Option Nat
  | .absent => none
  | .null => none
  | .set v => some v

/-- The update loop of `update_reservation` (`routers.py` lines 137-139):
`for field, value in payload.model_dump().items(): if value is not None:
setattr(result, field, value)` applied to the fetched row. -/
def applyPatch (r : Reservation) (payload : ReservationUpdate) : Reservation :=
  match dumpField payload.num_guests with
  | none => r
  | some v => { r with num_guests := v }

/-- Replaces the first element satisfying `p` (the row object mutated by
`setattr` and then committed) with `r'`; every other row is untouched. -/
def replaceFirst (p : Reservation → Bool) (r' : Reservation) :
    List Reservation → List Reservation
  | [] => []
  | x :: xs => if p x then r' :: xs else x :: replaceFirst p r' xs

/-- Handler `update_reservation` (`routers.py` lines 121-142): the owned
lookup; `None` raises 404; otherwise the non-`None` dumped fields are
written onto the fetched row and the session is committed.  No capacity
check occurs on this path. -/
def update_reservation (db : DB) (reservation_id user_id : Nat)
    (payload : ReservationUpdate) : DB × Except ApiError Reservation :=
  match ownedQuery db reservation_id user_id with
  | none => (db, .error .reservationNotFound)
  | some r =>
    let r' := applyPatch r payload
    let resvs :=
      replaceFirst (fun x => x.id == reservation_id && x.user_id == user_id)
        r' db.reservations
    ({ db with reservations := resvs }, .ok r')

/-- What `delete_reservation` hands back to FastAPI. `empty` is
`return None` (the route's declared 204 No Content).  `exceptionValue s`
records that the handler executed `return HTTPException(status_code=s,...)`
— the exception object is returned as an ordinary value, not raised, so
no error response with status `s` is produced. -/
inductive DeleteBody where
  | empty
  | exceptionValue (status : Nat)
deriving Repr, DecidableEq

/-- Handler `delete_reservation` (`routers.py` lines 145-162): the owned
lookup; when it misses, the code executes `return HTTPException(404, ...)`
(note: `return`, not `raise`), so the handler completes without raising;
when it hits, the fetched row is deleted and the session committed. -/
def delete_reservation (db : DB) (reservation_id user_id : Nat) :
    DB × Except ApiError DeleteBody :=
  match ownedQuery db reservation_id user_id with
  | none => (db, .ok (.exceptionValue 404))
  | some _ =>
    let resvs :=
      db.reservations.eraseP
        (fun x => x.id == reservation_id && x.user_id == user_id)
    ({ db with reservations := resvs }, .ok .empty)

/-- One API call in a sequence of capacity-affecting operations:
a `POST /reservations` (possibly hit by a storage fault) or a
`DELETE /reservations/{id}`. -/
inductive Op where
  | create (fault : Bool) (user_id : Nat) (payload : ReservationCreate)
  | del (user_id reservation_id : Nat)
deriving Repr

/-- The store after executing one operation (errors leave it unchanged). -/
def applyOp (db : DB) : Op → DB
  | .create f uid p => (create_reservation f db uid p).1
  | .del uid rid => (delete_reservation db rid uid).1

/-- The store after executing a whole sequence of operations. -/
def applyOps (db : DB) (ops : List Op) : DB := ops.foldl applyOp db

/-- The system's correctness invariant: for every event, the sum of
`num_guests` over the reservations stored against it is at most its
capacity. -/
def Invariant (db : DB) : Prop :=
  ∀ e ∈ db.events, eventTotal db.reservations e.id ≤ e.capacity

instance (db : DB) : Decidable (Invariant db) :=
  inferInstanceAs
    (Decidable (∀ e ∈ db.events, eventTotal db.reservations e.id ≤ e.capacity))

/-- Well-formedness of the event table: `Event.id` is a primary key. -/
def EventIdsNodup (db : DB) : Prop := (db.events.map Event.id).Nodup

instance (db : DB) : Decidable (EventIdsNodup db) :=
  inferInstanceAs (Decidable ((db.events.map Event.id).Nodup))

lemma eventTotal_append (l : List Reservation) (r : Reservation) (eid : Nat) :
    eventTotal (l ++ [r]) eid =
      eventTotal l eid + (if r.event_id = eid then r.num_guests else 0) := by
  unfold eventTotal
  rw [List.filter_append, List.map_append, List.sum_append]
  by_cases h : r.event_id = eid <;> simp [List.filter_cons, h]

lemma eventTotal_le_of_sublist {l₁ l₂ : List Reservation}
    (h : List.Sublist l₁ l₂) (eid : Nat) :
    eventTotal l₁ eid ≤ eventTotal l₂ eid :=
  List.Sublist.sum_le_sum ((h.filter _).map _) (fun a _ => Nat.zero_le a)

/-- Case analysis of `create_reservation`: either the store is unchanged
(fault, missing event, or capacity rejection) or the admission check
passed and exactly the new reservation row was appended. -/
lemma create_reservation_cases (f : Bool) (db : DB) (uid : Nat)
    (p : ReservationCreate) :
    (create_reservation f db uid p).1 = db ∨
    ∃ ev, db.events.find? (fun e => e.id == p.event_id) = some ev ∧
      eventTotal db.reservations p.event_id + p.num_guests ≤ ev.capacity ∧
      (create_reservation f db uid p).1 =
        { db with
          reservations :=
            db.reservations ++ [⟨db.nextId, uid, p.event_id, p.num_guests⟩],
          nextId := db.nextId + 1 } := by
  unfold create_reservation
  cases f
  · cases hf : db.events.find? (fun e => e.id == p.event_id) with
    | none => simp
    | some ev =>
      by_cases hc :
          eventTotal db.reservations p.event_id + p.num_guests > ev.capacity
      · simp [hc]
      · right
        exact ⟨ev, rfl, Nat.le_of_not_lt hc, by simp [hc]⟩
  · simp

lemma events_create (f : Bool) (db : DB) (uid : Nat) (p : ReservationCreate) :
    (create_reservation f db uid p).1.events = db.events := by
  rcases create_reservation_cases f db uid p with h | ⟨ev, _, _, h⟩ <;> simp [h]

lemma reservations_delete_sublist (db : DB) (rid uid : Nat) :
    List.Sublist (delete_reservation db rid uid).1.reservations
      db.reservations := by
  unfold delete_reservation
  cases ownedQuery db rid uid with
  | none => simp
  | some r => simpa using List.eraseP_sublist _

lemma events_delete (db : DB) (rid uid : Nat) :
    (delete_reservation db rid uid).1.events = db.events := by
  unfold delete_reservation
  cases ownedQuery db rid uid with
  | none => simp
  | some r => simp

lemma invariant_create (f : Bool) (db : DB) (uid : Nat) (p : ReservationCreate)
    (hn : EventIdsNodup db) (hI : Invariant db) :
    Invariant (create_reservation f db uid p).1 := by
  rcases create_reservation_cases f db uid p with h | ⟨ev, hf, hc, h⟩
  · rw [h]; exact hI
  · have hev_mem : ev ∈ db.events := List.mem_of_find?_eq_some hf
    have hev_id : ev.id = p.event_id := by
      have := List.find?_some hf
      simpa using this
    intro e he
    rw [h] at he ⊢
    simp only at he ⊢
    rw [eventTotal_append]
    by_cases hid : p.event_id = e.id
    · have heq : e = ev :=
        List.inj_on_of_nodup_map hn he hev_mem (by rw [hev_id, hid])
      rw [if_pos hid, ← hid, heq]
      exact hc
    · simpa [hid] using hI e he

lemma invariant_delete (db : DB) (rid uid : Nat) (hI : Invariant db) :
    Invariant (delete_reservation db rid uid).1 := by
  intro e he
  rw [events_delete] at he
  exact (eventTotal_le_of_sublist (reservations_delete_sublist db rid uid)
    e.id).trans (hI e he)

lemma applyOp_events (db : DB) (o : Op) : (applyOp db o).events = db.events := by
  cases o with
  | create f uid p => exact events_create f db uid p
  | del uid rid => exact events_delete db rid uid

lemma invariant_applyOp (db : DB) (o : Op) (hn : EventIdsNodup db)
    (hI : Invariant db) : Invariant (applyOp db o) := by
  cases o with
  | create f uid p => exact invariant_create f db uid p hn hI
  | del uid rid => exact invariant_delete db rid uid hI

/-- C1 (counterexample to the claim as stated): starting from a store
satisfying the invariant (one event of capacity 1, no reservations), the
sequence create(1 guest) then update(num_guests := 5) — operations the
claim ranges over — reaches a state where the reservation total 5 exceeds
the capacity 1: `update_reservation` never rechecks capacity. -/
theorem C1_counterexample :
    Invariant { events := [⟨1, 1⟩], reservations := [], nextId := 1 } ∧
    ¬ Invariant
      (update_reservation
        (create_reservation false
          { events := [⟨1, 1⟩], reservations := [], nextId := 1 } 7
          { event_id := 1, num_guests := 1 }).1
        1 7 { num_guests := .set 5 }).1 := by
  decide

/-- C1 (amended): for every store with a well-formed event table that
satisfies the capacity invariant, the invariant still holds after any
sequence of create and delete operations (updates excluded: an update can
violate it, see the counterexample). -/
theorem C1_invariant_create_delete (db : DB) (ops : List Op)
    (hn : EventIdsNodup db) (hI : Invariant db) :
    Invariant (applyOps db ops) := by
  induction ops generalizing db with
  | nil => exact hI
  | cons o os ih =>
    have hn' : EventIdsNodup (applyOp db o) := by
      unfold EventIdsNodup
      rw [applyOp_events]
      exact hn
    exact ih (applyOp db o) hn' (invariant_applyOp db o hn hI)

/-- C1 witness: the amended theorem applied to a concrete store and a
concrete create-then-delete sequence. -/
theorem C1_invariant_create_delete_witness :
    EventIdsNodup { events := [⟨1, 10⟩], reservations := [], nextId := 1 } ∧
    Invariant { events := [⟨1, 10⟩], reservations := [], nextId := 1 } ∧
    Invariant (applyOps { events := [⟨1, 10⟩], reservations := [], nextId := 1 }
      [.create false 7 ⟨1, 10⟩, .del 7 1]) :=
  ⟨by decide, by decide,
    C1_invariant_create_delete _ _ (by decide) (by decide)⟩

/-- C2: `create_reservation` executed alone: a missing event yields 404
`eventNotFound` and an unchanged store; with the event row `ev` found,
it yields 400 `capacityExceeded` exactly when the current reservation
total plus the requested guests exceeds `ev.capacity`, and otherwise
(including an exact fill) appends and returns the new reservation. -/
theorem C2_create_contract (db : DB) (uid : Nat) (p : ReservationCreate) :
    ((∀ e ∈ db.events, e.id ≠ p.event_id) →
      create_reservation false db uid p = (db, .error .eventNotFound)) ∧
    (∀ ev, db.events.find? (fun e => e.id == p.event_id) = some ev →
      (((create_reservation false db uid p).2 = .error .capacityExceeded) ↔
        ev.capacity < eventTotal db.reservations p.event_id + p.num_guests) ∧
      (eventTotal db.reservations p.event_id + p.num_guests ≤ ev.capacity →
        create_reservation false db uid p =
          ({ db with
              reservations := db.reservations ++
                [⟨db.nextId, uid, p.event_id, p.num_guests⟩],
              nextId := db.nextId + 1 },
            .ok ⟨db.nextId, uid, p.event_id, p.num_guests⟩))) := by
  constructor
  · intro h
    have hnone : db.events.find? (fun e => e.id == p.event_id) = none :=
      List.find?_eq_none.mpr (fun e he => by simpa using h e he)
    simp [create_reservation, hnone]
  · intro ev hf
    constructor
    · unfold create_reservation
      rw [hf]
      by_cases hc :
          eventTotal db.reservations p.event_id + p.num_guests > ev.capacity
      · simp only [if_pos hc]
        simpa using hc
      · simp only [if_neg hc]
        simpa using hc
    · intro hle
      unfold create_reservation
      rw [hf]
      simp [Nat.not_lt.mpr hle]

/-- C2 witness: spec Scenario 1 — event of capacity 10 with no
reservations; a request for exactly 10 guests is accepted and stored. -/
theorem C2_create_contract_witness :
    create_reservation false
        { events := [⟨1, 10⟩], reservations := [], nextId := 1 } 2
        { event_id := 1, num_guests := 10 } =
      ({ events := [⟨1, 10⟩], reservations := [⟨1, 2, 1, 10⟩], nextId := 2 },
       .ok ⟨1, 2, 1, 10⟩) := by
  have h := (C2_create_contract
    { events := [⟨1, 10⟩], reservations := [], nextId := 1 } 2
    { event_id := 1, num_guests := 10 }).2 ⟨1, 10⟩ (by decide)
  simpa using h.2 (by decide)

/-- C4: `create_reservation` is atomic on failure — whenever it raises
(`eventNotFound`, `capacityExceeded`, or a storage fault aborting the
unit of work), the transactional block rolls every write back and the
store is exactly as before the call. -/
theorem C4_create_atomic (f : Bool) (db : DB) (uid : Nat)
    (p : ReservationCreate) (err : ApiError)
    (h : (create_reservation f db uid p).2 = .error err) :
    (create_reservation f db uid p).1 = db := by
  unfold create_reservation at h ⊢
  cases f
  · cases hf : db.events.find? (fun e => e.id == p.event_id) with
    | none => simp
    | some ev =>
      rw [hf] at h
      by_cases hc :
          eventTotal db.reservations p.event_id + p.num_guests > ev.capacity
      · simp [hc]
      · simp [hc] at h
  · simp

/-- C4 witness: a storage fault during a create leaves the store intact. -/
theorem C4_create_atomic_witness :
    (create_reservation true
        { events := [⟨1, 10⟩], reservations := [], nextId := 1 } 7
        ⟨1, 1⟩).2 = .error .storageFailure ∧
    (create_reservation true
        { events := [⟨1, 10⟩], reservations := [], nextId := 1 } 7
        ⟨1, 1⟩).1 =
      { events := [⟨1, 10⟩], reservations := [], nextId := 1 } :=
  ⟨by decide,
   C4_create_atomic true { events := [⟨1, 10⟩], reservations := [], nextId := 1 }
     7 ⟨1, 1⟩ .storageFailure (by decide)⟩

/-- C5: when no reservation row has both the requested id and the
caller's user id — which covers both a wholly absent id and an id owned
by a different user — `get_reservation` and `update_reservation` fail
with the same 404 `reservationNotFound` (and the update leaves the store
unchanged), so the two failure causes are indistinguishable to the
caller. -/
theorem C5_ownership_isolation (db : DB) (rid uid : Nat)
    (p : ReservationUpdate)
    (h : ∀ r ∈ db.reservations, r.id = rid → r.user_id ≠ uid) :
    get_reservation db rid uid = .error .reservationNotFound ∧
    update_reservation db rid uid p = (db, .error .reservationNotFound) := by
  have hq : ownedQuery db rid uid = none := by
    unfold ownedQuery
    refine List.find?_eq_none.mpr (fun r hr => ?_)
    simp only [Bool.and_eq_true, beq_iff_eq, not_and]
    exact h r hr
  exact ⟨by simp [get_reservation, hq], by simp [update_reservation, hq]⟩

/-- C5 witness: user 9's lookup of reservation 1 gets the same 404
whether reservation 1 is owned by user 2 or does not exist at all. -/
theorem C5_ownership_isolation_witness :
    get_reservation
        { events := [], reservations := [⟨1, 2, 1, 3⟩], nextId := 2 } 1 9 =
      .error .reservationNotFound ∧
    get_reservation { events := [], reservations := [], nextId := 1 } 1 9 =
      .error .reservationNotFound :=
  ⟨(C5_ownership_isolation
      { events := [], reservations := [⟨1, 2, 1, 3⟩], nextId := 2 } 1 9
      ⟨.absent⟩ (by decide)).1,
   (C5_ownership_isolation
      { events := [], reservations := [], nextId := 1 } 1 9
      ⟨.absent⟩ (by decide)).1⟩

/-- C6 (code bug, `routers.py` line 158): an owned delete does remove the
row and answer 204, but when the lookup misses — a second delete of the
same id, or another user's reservation — the handler executes
`return HTTPException(404, ...)` instead of `raise`, so no exception is
raised: the outcome is `.ok (.exceptionValue 404)`, the HTTP response is
the route's declared 204 success, and no 404 error response is produced,
contrary to the claim. -/
theorem C6_delete_bug :
    delete_reservation
        { events := [⟨1, 5⟩], reservations := [⟨1, 2, 1, 3⟩], nextId := 2 }
        1 2 =
      ({ events := [⟨1, 5⟩], reservations := [], nextId := 2 }, .ok .empty) ∧
    (delete_reservation
        { events := [⟨1, 5⟩], reservations := [], nextId := 2 } 1 2).2 =
      .ok (.exceptionValue 404) ∧
    delete_reservation
        { events := [⟨1, 5⟩], reservations := [⟨1, 2, 1, 3⟩], nextId := 2 }
        1 9 =
      ({ events := [⟨1, 5⟩], reservations := [⟨1, 2, 1, 3⟩], nextId := 2 },
       .ok (.exceptionValue 404)) := by
  decide

lemma replaceFirst_length (p : Reservation → Bool) (r' : Reservation)
    (l : List Reservation) : (replaceFirst p r' l).length = l.length := by
  induction l with
  | nil => rfl
  | cons x xs ih =>
    unfold replaceFirst
    by_cases hx : p x <;> simp [hx, ih]

lemma mem_replaceFirst_of_find? {p : Reservation → Bool} {l : List Reservation}
    {r : Reservation} (h : l.find? p = some r) (r' : Reservation) :
    r' ∈ replaceFirst p r' l := by
  induction l with
  | nil => simp at h
  | cons x xs ih =>
    unfold replaceFirst
    by_cases hx : p x
    · rw [if_pos hx]
      exact List.mem_cons_self _ _
    · rw [List.find?_cons_of_neg _ hx] at h
      rw [if_neg hx]
      exact List.mem_cons_of_mem x (ih h)

lemma mem_replaceFirst_of_not_pred {p : Reservation → Bool}
    {r' x : Reservation} {l : List Reservation} (hm : x ∈ l)
    (hx : p x = false) : x ∈ replaceFirst p r' l := by
  induction l with
  | nil => simp at hm
  | cons y ys ih =>
    unfold replaceFirst
    by_cases hy : p y
    · rw [if_pos hy]
      rcases List.mem_cons.mp hm with rfl | hmem
      · simp [hy] at hx
      · exact List.mem_cons_of_mem _ hmem
    · rw [if_neg hy]
      rcases List.mem_cons.mp hm with rfl | hmem
      · exact List.mem_cons_self _ _
      · exact List.mem_cons_of_mem _ (ih hmem)

lemma applyPatch_id (r : Reservation) (p : ReservationUpdate) :
    (applyPatch r p).id = r.id := by
  cases hp : p.num_guests <;> simp [applyPatch, dumpField, hp]

lemma applyPatch_user_id (r : Reservation) (p : ReservationUpdate) :
    (applyPatch r p).user_id = r.user_id := by
  cases hp : p.num_guests <;> simp [applyPatch, dumpField, hp]

lemma applyPatch_event_id (r : Reservation) (p : ReservationUpdate) :
    (applyPatch r p).event_id = r.event_id := by
  cases hp : p.num_guests <;> simp [applyPatch, dumpField, hp]

lemma applyPatch_absent (r : Reservation) (p : ReservationUpdate)
    (h : p.num_guests = .absent) : applyPatch r p = r := by
  simp [applyPatch, dumpField, h]

lemma applyPatch_null (r : Reservation) (p : ReservationUpdate)
    (h : p.num_guests = .null) : applyPatch r p = r := by
  simp [applyPatch, dumpField, h]

lemma applyPatch_set (r : Reservation) (p : ReservationUpdate) (v : Nat)
    (h : p.num_guests = .set v) :
    applyPatch r p = { r with num_guests := v } := by
  simp [applyPatch, dumpField, h]

/-- C7: `update_reservation` never re-validates capacity — for any
reservation `r` the owned lookup finds, a patch setting `num_guests` to
any positive `v` succeeds, returning and persisting the new value, with
no hypothesis whatsoever about the event's capacity. -/
theorem C7_update_no_capacity_check (db : DB) (rid uid v : Nat)
    (r : Reservation) (hv : 0 < v)
    (hq : ownedQuery db rid uid = some r) :
    (update_reservation db rid uid { num_guests := .set v }).2 =
      .ok { r with num_guests := v } ∧
    { r with num_guests := v } ∈
      (update_reservation db rid uid { num_guests := .set v }).1.reservations := by
  unfold update_reservation
  rw [hq]
  exact ⟨rfl, mem_replaceFirst_of_find? hq _⟩

/-- C7 witness: event 1 has capacity 1 and its only reservation is
updated from 1 to 5 guests; the update is accepted and the stored total
5 now exceeds the capacity 1. -/
theorem C7_update_no_capacity_check_witness :
    (0 : Nat) < 5 ∧
    (update_reservation
        { events := [⟨1, 1⟩], reservations := [⟨1, 2, 1, 1⟩], nextId := 2 }
        1 2 { num_guests := .set 5 }).2 = .ok ⟨1, 2, 1, 5⟩ ∧
    eventTotal
      (update_reservation
        { events := [⟨1, 1⟩], reservations := [⟨1, 2, 1, 1⟩], nextId := 2 }
        1 2 { num_guests := .set 5 }).1.reservations 1 = 5 ∧
    (1 : Nat) < 5 :=
  ⟨by decide,
   (C7_update_no_capacity_check
     { events := [⟨1, 1⟩], reservations := [⟨1, 2, 1, 1⟩], nextId := 2 }
     1 2 5 ⟨1, 2, 1, 1⟩ (by decide) (by decide)).1,
   by decide, by decide⟩

/-- C8 (counterexample to the claim as stated): on the same store, a
patch whose `num_guests` is explicitly `null` and a patch omitting the
field are different request bodies yet produce identical results — the
update loop skips every `None` of `model_dump()`, so explicit null is
NOT distinguishable in effect from omission. -/
theorem C8_null_counterexample :
    update_reservation
        { events := [⟨1, 5⟩], reservations := [⟨1, 2, 1, 3⟩], nextId := 2 }
        1 2 { num_guests := .null } =
      update_reservation
        { events := [⟨1, 5⟩], reservations := [⟨1, 2, 1, 3⟩], nextId := 2 }
        1 2 { num_guests := .absent } ∧
    ({ num_guests := .null } : ReservationUpdate) ≠
      { num_guests := .absent } := by
  decide

/-- C8 (amended): `update_reservation` is a partial patch — it writes
exactly the fields `model_dump()` yields as non-`None`: the target keeps
its id, owner and event id; an absent `num_guests` (and likewise an
explicit null, which the code cannot tell apart) leaves the prior value;
a set value is written; the store keeps its size and every non-target
row is preserved. -/
theorem C8_update_partial_patch (db : DB) (rid uid : Nat)
    (p : ReservationUpdate) (r : Reservation)
    (hq : ownedQuery db rid uid = some r) :
    (update_reservation db rid uid p).2 = .ok (applyPatch r p) ∧
    (applyPatch r p).id = r.id ∧
    (applyPatch r p).user_id = r.user_id ∧
    (applyPatch r p).event_id = r.event_id ∧
    (p.num_guests = .absent → applyPatch r p = r) ∧
    (p.num_guests = .null → applyPatch r p = r) ∧
    (∀ v, p.num_guests = .set v →
      applyPatch r p = { r with num_guests := v }) ∧
    (update_reservation db rid uid p).1.reservations.length =
      db.reservations.length ∧
    (∀ x ∈ db.reservations, (x.id == rid && x.user_id == uid) = false →
      x ∈ (update_reservation db rid uid p).1.reservations) := by
  unfold update_reservation
  rw [hq]
  refine ⟨rfl, applyPatch_id r p, applyPatch_user_id r p,
    applyPatch_event_id r p, applyPatch_absent r p, applyPatch_null r p,
    fun v hv => applyPatch_set r p v hv, replaceFirst_length _ _ _,
    fun x hm hx => mem_replaceFirst_of_not_pred hm hx⟩

/-- C8 witness: the amended theorem at a concrete store with an absent
patch field — the reservation is returned unchanged. -/
theorem C8_update_partial_patch_witness :
    (update_reservation
        { events := [⟨1, 5⟩], reservations := [⟨1, 2, 1, 3⟩], nextId := 2 }
        1 2 { num_guests := .absent }).2 = .ok ⟨1, 2, 1, 3⟩ := by
  have h := C8_update_partial_patch
    { events := [⟨1, 5⟩], reservations := [⟨1, 2, 1, 3⟩], nextId := 2 }
    1 2 { num_guests := .absent } ⟨1, 2, 1, 3⟩ (by decide)
  rw [h.1, h.2.2.2.2.1 rfl]

/-- C9: the owner stored on a reservation created by
`create_reservation` is always the `user_id` the `JWTBearer` dependency
resolved from the bearer token (the request body carries no owner the
code would consult), and `get_reservations` returns exactly the caller's
reservations: every stored reservation owned by the caller and no
other. -/
theorem C9_owner_and_list (f : Bool) (db : DB) (uid : Nat)
    (p : ReservationCreate) :
    (∀ db' r, create_reservation f db uid p = (db', .ok r) →
      r.user_id = uid ∧ r ∈ db'.reservations) ∧
    (∀ r : Reservation,
      r ∈ get_reservations db uid ↔ r ∈ db.reservations ∧ r.user_id = uid) := by
  constructor
  · intro db' r h
    unfold create_reservation at h
    cases f
    · cases hf : db.events.find? (fun e => e.id == p.event_id) with
      | none =>
        rw [hf] at h
        simp at h
      | some ev =>
        rw [hf, if_neg Bool.false_ne_true] at h
        by_cases hc :
            eventTotal db.reservations p.event_id + p.num_guests > ev.capacity
        · simp [hc] at h
        · simp only [if_neg hc, Prod.mk.injEq, Except.ok.injEq] at h
          obtain ⟨hdb, hr⟩ := h
          subst hdb
          subst hr
          exact ⟨rfl, by simp⟩
    · simp at h
  · intro r
    simp [get_reservations, List.mem_filter]

/-- C9 witness: a create by authenticated user 7 stores owner 7, and
user 7's list contains that reservation. -/
theorem C9_owner_and_list_witness :
    ((⟨1, 7, 1, 2⟩ : Reservation).user_id = 7 ∧
      (⟨1, 7, 1, 2⟩ : Reservation) ∈
        ({ events := [⟨1, 10⟩], reservations := [⟨1, 7, 1, 2⟩],
           nextId := 2 } : DB).reservations) ∧
    (⟨1, 7, 1, 2⟩ : Reservation) ∈
      get_reservations
        { events := [⟨1, 10⟩], reservations := [⟨1, 7, 1, 2⟩], nextId := 2 }
        7 :=
  ⟨(C9_owner_and_list false
      { events := [⟨1, 10⟩], reservations := [], nextId := 1 } 7 ⟨1, 2⟩).1
      { events := [⟨1, 10⟩], reservations := [⟨1, 7, 1, 2⟩], nextId := 2 }
      ⟨1, 7, 1, 2⟩ (by decide),
   ((C9_owner_and_list false
      { events := [⟨1, 10⟩], reservations := [⟨1, 7, 1, 2⟩], nextId := 2 }
      7 ⟨1, 2⟩).2 ⟨1, 7, 1, 2⟩).mpr (by decide)⟩

/-! Byte-level model of `src/encryption.py`.  A byte string is a
`List Nat` of values below 256 (the UTF-8 bytes of the Python `str` on
the encrypt side).  The AES-256 block permutation produced by
`AES.new(key, MODE_CBC, iv)` is abstracted as a pair of functions
`E`/`D` on 16-byte blocks with `D (E b) = b`; the CBC chaining, the
PKCS#7 padding of `Crypto.Util.Padding` and the base64 transport
encoding are modelled in full. -/

/-- `Crypto.Util.Padding.pad(data, 16)` (PKCS#7): append
`n = 16 - len(data) % 16` bytes, each of value `n`. -/
def pad (bs : Nat) (l : List Nat) : List Nat :=
  l ++ List.replicate (bs - l.length % bs) (bs - l.length % bs)

/-- `Crypto.Util.Padding.unpad(data, 16)` (PKCS#7): reject an empty or
non-block-aligned input; read the pad length `n` from the last byte;
reject unless `1 ≤ n ≤ min bs len` and the last `n` bytes all equal `n`;
strip them. -/
def unpad (bs : Nat) (l : List Nat) : Option (List Nat) :=
  if l.length = 0 then none
  else if l.length % bs ≠ 0 then none
  else
    match l.getLast? with
    | none => none
    | some n =>
      if n < 1 ∨ min bs l.length < n then none
      else if l.drop (l.length - n) = List.replicate n n then
        some (l.take (l.length - n))
      else none

/-- Pointwise XOR of two byte strings (the CBC combining step). -/
def xorBytes (a b : List Nat) : List Nat :=
  List.zipWith (fun x y => x ^^^ y) a b

/-- Split a byte string into consecutive 16-byte blocks (the last block
may be short if the input is not block-aligned). -/
def toBlocks (l : List Nat) : List (List Nat) :=
  if h : l = [] then []
  else l.take 16 :: toBlocks (l.drop 16)
termination_by l.length
decreasing_by
  simp only [List.length_drop]
  have := List.length_pos.mpr h
  omega

/-- CBC encryption of a block sequence: each plaintext block is XORed
with the previous ciphertext block (initially the IV) and passed through
the block cipher `E`. -/
def cbcEncryptBlocks (E : List Nat → List Nat) (prev : List Nat) :
    List (List Nat) → List (List Nat)
  | [] => []
  | b :: bs =>
    let c := E (xorBytes b prev)
    c :: cbcEncryptBlocks E c bs

/-- CBC decryption of a block sequence: each ciphertext block is passed
through the inverse block cipher `D` and XORed with the previous
ciphertext block (initially the IV). -/
def cbcDecryptBlocks (D : List Nat → List Nat) (prev : List Nat) :
    List (List Nat) → List (List Nat)
  | [] => []
  | c :: cs => xorBytes (D c) prev :: cbcDecryptBlocks D c cs

/-- The base64 alphabet as ASCII codes: sextets 0-25 map to A-Z, 26-51
to a-z, 52-61 to 0-9, 62 to plus, 63 to slash. -/
def b64char (n : Nat) : Nat :=
  if n < 26 then 65 + n
  else if n < 52 then 97 + (n - 26)
  else if n < 62 then 48 + (n - 52)
  else if n = 62 then 43
  else 47

/-- Inverse of the base64 alphabet table. -/
def b64val (c : Nat) : Nat :=
  if 65 ≤ c ∧ c ≤ 90 then c - 65
  else if 97 ≤ c ∧ c ≤ 122 then c - 97 + 26
  else if 48 ≤ c ∧ c ≤ 57 then c - 48 + 52
  else if c = 43 then 62
  else 63

/-- `base64.b64encode`: groups of three bytes become four alphabet
characters; a trailing group of one or two bytes is completed with the
`=` (ASCII 61) pad characters. -/
def b64encodeBytes : List Nat → List Nat
  | [] => []
  | [a] => [b64char (a / 4), b64char (a % 4 * 16), 61, 61]
  | [a, b] =>
    [b64char (a / 4), b64char (a % 4 * 16 + b / 16), b64char (b % 16 * 4), 61]
  | a :: b :: c :: rest =>
    b64char (a / 4) :: b64char (a % 4 * 16 + b / 16) ::
      b64char (b % 16 * 4 + c / 64) :: b64char (c % 64) :: b64encodeBytes rest

/-- `base64.b64decode`: each group of four characters yields three bytes,
or fewer when `=` padding closes the group. -/
def b64decodeBytes : List Nat → List Nat
  | w :: x :: y :: z :: rest =>
    if y = 61 then [b64val w * 4 + b64val x / 16]
    else if z = 61 then
      [b64val w * 4 + b64val x / 16, b64val x % 16 * 16 + b64val y / 4]
    else
      (b64val w * 4 + b64val x / 16) ::
        (b64val x % 16 * 16 + b64val y / 4) ::
        (b64val y % 4 * 64 + b64val z) :: b64decodeBytes rest
  | _ => []

/-- `Encryption.encrypt` (`encryption.py` lines 13-17) at byte level:
PKCS#7-pad the plaintext, CBC-encrypt it under the block cipher `E` with
the fresh 16-byte `iv`, prepend the IV, and base64-encode the result. -/
def encrypt (E : List Nat → List Nat) (iv : List Nat)
    (plaintext : List Nat) : List Nat :=
  b64encodeBytes (iv ++ (cbcEncryptBlocks E iv (toBlocks (pad 16 plaintext))).flatten)

/-- `Encryption.decrypt` (`encryption.py` lines 19-25) at byte level:
base64-decode, recover the IV from the first 16 bytes, CBC-decrypt the
rest under the inverse block cipher `D`, and strip the PKCS#7 padding. -/
def decrypt (D : List Nat → List Nat) (encrypted_text : List Nat) :
    Option (List Nat) :=
  let raw_data := b64decodeBytes encrypted_text
  let iv := raw_data.take 16
  let ciphertext := raw_data.drop 16
  unpad 16 ((cbcDecryptBlocks D iv (toBlocks ciphertext)).flatten)

lemma b64val_b64char : ∀ n, n < 64 → b64val (b64char n) = n := by decide

lemma b64char_ne_61 : ∀ n, n < 64 → b64char n ≠ 61 := by decide

lemma b64decode_encode (l : List Nat) (h : ∀ x ∈ l, x < 256) :
    b64decodeBytes (b64encodeBytes l) = l := by
  induction l using b64encodeBytes.induct with
  | case1 => rfl
  | case2 a =>
    have ha : a < 256 := h a (by simp)
    have h1 := b64val_b64char (a / 4) (by omega)
    have h2 := b64val_b64char (a % 4 * 16) (by omega)
    simp only [b64encodeBytes]
    simp [b64decodeBytes, h1, h2]
    omega
  | case3 a b =>
    have ha : a < 256 := h a (by simp)
    have hb : b < 256 := h b (by simp)
    have h1 := b64val_b64char (a / 4) (by omega)
    have h2 := b64val_b64char (a % 4 * 16 + b / 16) (by omega)
    have h3 := b64val_b64char (b % 16 * 4) (by omega)
    have hy := b64char_ne_61 (b % 16 * 4) (by omega)
    simp only [b64encodeBytes]
    simp [b64decodeBytes, hy, h1, h2, h3]
    omega
  | case4 a b c rest ih =>
    have ha : a < 256 := h a (by simp)
    have hb : b < 256 := h b (by simp)
    have hc : c < 256 := h c (by simp)
    have h1 := b64val_b64char (a / 4) (by omega)
    have h2 := b64val_b64char (a % 4 * 16 + b / 16) (by omega)
    have h3 := b64val_b64char (b % 16 * 4 + c / 64) (by omega)
    have h4 := b64val_b64char (c % 64) (by omega)
    have hy := b64char_ne_61 (b % 16 * 4 + c / 64) (by omega)
    have hz := b64char_ne_61 (c % 64) (by omega)
    have hrest : ∀ x ∈ rest, x < 256 := fun x hx =>
      h x (by simp [hx])
    simp only [b64encodeBytes]
    simp [b64decodeBytes, hy, hz, h1, h2, h3, h4, ih hrest]
    omega

lemma pad_length_mod (l : List Nat) : (pad 16 l).length % 16 = 0 := by
  simp only [pad, List.length_append, List.length_replicate]
  omega

lemma pad_bytes_lt (l : List Nat) (h : ∀ x ∈ l, x < 256) :
    ∀ x ∈ pad 16 l, x < 256 := by
  intro x hx
  rcases List.mem_append.mp hx with hx | hx
  · exact h x hx
  · have := List.eq_of_mem_replicate hx
    omega

lemma unpad_pad (l : List Nat) : unpad 16 (pad 16 l) = some l := by
  have hn1 : 1 ≤ 16 - l.length % 16 := by omega
  have hn16 : 16 - l.length % 16 ≤ 16 := by omega
  have hlen : (pad 16 l).length = l.length + (16 - l.length % 16) := by
    simp [pad]
  unfold unpad
  rw [if_neg (by omega), if_neg (by simpa [hlen] using pad_length_mod l)]
  have hlast : (pad 16 l).getLast? = some (16 - l.length % 16) := by
    rw [pad, List.getLast?_append, List.getLast?_replicate, if_neg (by omega)]
    rfl
  rw [hlast]
  have hcond : ¬(16 - l.length % 16 < 1 ∨
      min 16 (pad 16 l).length < 16 - l.length % 16) := by
    rw [hlen]
    omega
  simp only [if_neg hcond]
  have hidx : (pad 16 l).length - (16 - l.length % 16) = l.length := by omega
  rw [hidx]
  have hdrop : (pad 16 l).drop l.length =
      List.replicate (16 - l.length % 16) (16 - l.length % 16) := by
    rw [pad]
    exact List.drop_left _ _
  rw [if_pos hdrop]
  rw [pad, List.take_left]

lemma flatten_toBlocks (l : List Nat) : (toBlocks l).flatten = l := by
  induction l using toBlocks.induct with
  | case1 => simp [toBlocks]
  | case2 l h ih =>
    rw [toBlocks, dif_neg h]
    simp only [List.flatten_cons, ih]
    exact List.take_append_drop 16 l

lemma length_mem_toBlocks (l : List Nat) (hm : l.length % 16 = 0) :
    ∀ b ∈ toBlocks l, b.length = 16 := by
  induction l using toBlocks.induct with
  | case1 => simp [toBlocks]
  | case2 l h ih =>
    intro b hb
    rw [toBlocks, dif_neg h] at hb
    have hpos : 0 < l.length := List.length_pos.mpr h
    have h16 : 16 ≤ l.length := by omega
    rcases List.mem_cons.mp hb with rfl | hb
    · simp only [List.length_take]
      omega
    · exact ih (by simp only [List.length_drop]; omega) b hb

lemma toBlocks_bytes_lt (l : List Nat) (h : ∀ x ∈ l, x < 256) :
    ∀ b ∈ toBlocks l, ∀ x ∈ b, x < 256 := by
  induction l using toBlocks.induct with
  | case1 => simp [toBlocks]
  | case2 l hl ih =>
    intro b hb
    rw [toBlocks, dif_neg hl] at hb
    rcases List.mem_cons.mp hb with rfl | hb
    · exact fun x hx => h x (List.take_subset 16 l hx)
    · exact ih (fun x hx => h x (List.drop_subset 16 l hx)) b hb

lemma toBlocks_flatten (bs : List (List Nat))
    (h : ∀ b ∈ bs, b.length = 16) : toBlocks bs.flatten = bs := by
  induction bs with
  | nil => simp [toBlocks]
  | cons b bs ih =>
    have hb : b.length = 16 := h b (by simp)
    have hne : b ++ bs.flatten ≠ [] := by
      intro hcon
      have : b = [] := (List.append_eq_nil.mp hcon).1
      simp [this] at hb
    rw [List.flatten_cons, toBlocks, dif_neg hne, List.take_left' hb,
      List.drop_left' hb, ih (fun b' hb' => h b' (List.mem_cons_of_mem _ hb'))]

lemma xor_lt_256 {x y : Nat} (hx : x < 256) (hy : y < 256) :
    x ^^^ y < 256 := by
  have e : (2 : Nat) ^ 8 = 256 := by norm_num
  exact e ▸ Nat.xor_lt_two_pow (e.symm ▸ hx) (e.symm ▸ hy)

lemma length_xorBytes (a b : List Nat) :
    (xorBytes a b).length = min a.length b.length := by
  simp [xorBytes]

lemma xorBytes_xorBytes_self (a b : List Nat) (h : a.length ≤ b.length) :
    xorBytes (xorBytes a b) b = a := by
  induction a generalizing b with
  | nil => simp [xorBytes]
  | cons x xs ih =>
    cases b with
    | nil => simp at h
    | cons y ys =>
      simp only [xorBytes, List.zipWith_cons_cons] at ih ⊢
      rw [Nat.xor_assoc, Nat.xor_self, Nat.xor_zero]
      rw [ih ys (by simpa using h)]

lemma xorBytes_bytes_lt (a b : List Nat) (ha : ∀ x ∈ a, x < 256)
    (hb : ∀ x ∈ b, x < 256) : ∀ x ∈ xorBytes a b, x < 256 := by
  induction a generalizing b with
  | nil => simp [xorBytes]
  | cons x xs ih =>
    cases b with
    | nil => simp [xorBytes]
    | cons y ys =>
      simp only [xorBytes, List.zipWith_cons_cons]
      intro z hz
      rcases List.mem_cons.mp hz with rfl | hz
      · exact xor_lt_256 (ha x (by simp)) (hb y (by simp))
      · exact ih ys (fun u hu => ha u (by simp [hu]))
          (fun u hu => hb u (by simp [hu])) z hz

lemma cbcEncrypt_lengths (E : List Nat → List Nat)
    (hElen : ∀ b : List Nat, b.length = 16 → (E b).length = 16)
    (bs : List (List Nat)) (prev : List Nat) (hprev : prev.length = 16)
    (hbs : ∀ b ∈ bs, b.length = 16) :
    ∀ c ∈ cbcEncryptBlocks E prev bs, c.length = 16 := by
  induction bs generalizing prev with
  | nil => simp [cbcEncryptBlocks]
  | cons b bs ih =>
    have hb : b.length = 16 := hbs b (by simp)
    have hx : (xorBytes b prev).length = 16 := by
      rw [length_xorBytes, hb, hprev]
      exact Nat.min_self 16
    have hc1 : (E (xorBytes b prev)).length = 16 := hElen _ hx
    intro c hc
    simp only [cbcEncryptBlocks] at hc
    rcases List.mem_cons.mp hc with rfl | hc
    · exact hc1
    · exact ih (E (xorBytes b prev)) hc1
        (fun b' hb' => hbs b' (List.mem_cons_of_mem _ hb')) c hc

lemma cbcEncrypt_bytes_lt (E : List Nat → List Nat)
    (hElen : ∀ b : List Nat, b.length = 16 → (E b).length = 16)
    (hEbytes : ∀ b : List Nat, b.length = 16 → (∀ x ∈ b, x < 256) →
      ∀ x ∈ E b, x < 256)
    (bs : List (List Nat)) (prev : List Nat) (hprev : prev.length = 16)
    (hprevb : ∀ x ∈ prev, x < 256)
    (hbs : ∀ b ∈ bs, b.length = 16)
    (hbsb : ∀ b ∈ bs, ∀ x ∈ b, x < 256) :
    ∀ c ∈ cbcEncryptBlocks E prev bs, ∀ x ∈ c, x < 256 := by
  induction bs generalizing prev with
  | nil => simp [cbcEncryptBlocks]
  | cons b bs ih =>
    have hb : b.length = 16 := hbs b (by simp)
    have hx : (xorBytes b prev).length = 16 := by
      rw [length_xorBytes, hb, hprev]
      exact Nat.min_self 16
    have hxb : ∀ x ∈ xorBytes b prev, x < 256 :=
      xorBytes_bytes_lt b prev (hbsb b (by simp)) hprevb
    have hc1len : (E (xorBytes b prev)).length = 16 := hElen _ hx
    have hc1b : ∀ x ∈ E (xorBytes b prev), x < 256 := hEbytes _ hx hxb
    intro c hc
    simp only [cbcEncryptBlocks] at hc
    rcases List.mem_cons.mp hc with rfl | hc
    · exact hc1b
    · exact ih (E (xorBytes b prev)) hc1len hc1b
        (fun b' hb' => hbs b' (List.mem_cons_of_mem _ hb'))
        (fun b' hb' => hbsb b' (List.mem_cons_of_mem _ hb')) c hc

lemma cbcDecrypt_cbcEncrypt (E D : List Nat → List Nat)
    (hED : ∀ b : List Nat, b.length = 16 → D (E b) = b)
    (hElen : ∀ b : List Nat, b.length = 16 → (E b).length = 16)
    (bs : List (List Nat)) (prev : List Nat) (hprev : prev.length = 16)
    (hbs : ∀ b ∈ bs, b.length = 16) :
    cbcDecryptBlocks D prev (cbcEncryptBlocks E prev bs) = bs := by
  induction bs generalizing prev with
  | nil => simp [cbcEncryptBlocks, cbcDecryptBlocks]
  | cons b bs ih =>
    have hb : b.length = 16 := hbs b (by simp)
    have hx : (xorBytes b prev).length = 16 := by
      rw [length_xorBytes, hb, hprev]
      exact Nat.min_self 16
    simp only [cbcEncryptBlocks, cbcDecryptBlocks]
    rw [hED _ hx, xorBytes_xorBytes_self b prev (by omega)]
    rw [ih (E (xorBytes b prev)) (hElen _ hx)
      (fun b' hb' => hbs b' (List.mem_cons_of_mem _ hb'))]

/-- C10: the encrypt/decrypt round trip of `Encryption`
(`src/encryption.py`): for any inverse pair `E`/`D` of length- and
byte-range-preserving 16-byte block transforms (the AES permutation
under the fixed key), any 16-byte IV and any plaintext byte string,
decrypting the encryption returns the plaintext — base64 decoding
inverts encoding, the IV is recovered from the first 16 bytes, CBC
decryption inverts CBC encryption, and unpadding strips exactly the
PKCS#7 padding. -/
theorem C10_encrypt_decrypt_roundtrip (E D : List Nat → List Nat)
    (iv p : List Nat)
    (hED : ∀ b : List Nat, b.length = 16 → D (E b) = b)
    (hElen : ∀ b : List Nat, b.length = 16 → (E b).length = 16)
    (hEbytes : ∀ b : List Nat, b.length = 16 → (∀ x ∈ b, x < 256) →
      ∀ x ∈ E b, x < 256)
    (hiv : iv.length = 16) (hivb : ∀ x ∈ iv, x < 256)
    (hp : ∀ x ∈ p, x < 256) :
    decrypt D (encrypt E iv p) = some p := by
  simp only [encrypt, decrypt]
  have hblens := length_mem_toBlocks (pad 16 p) (pad_length_mod p)
  have hbbytes := toBlocks_bytes_lt (pad 16 p) (pad_bytes_lt p hp)
  have hclens := cbcEncrypt_lengths E hElen (toBlocks (pad 16 p)) iv hiv hblens
  have hcbytes := cbcEncrypt_bytes_lt E hElen hEbytes (toBlocks (pad 16 p))
    iv hiv hivb hblens hbbytes
  have hfull : ∀ x ∈ iv ++ (cbcEncryptBlocks E iv (toBlocks (pad 16 p))).flatten,
      x < 256 := by
    intro x hx
    rcases List.mem_append.mp hx with hx | hx
    · exact hivb x hx
    · rcases List.mem_flatten.mp hx with ⟨c, hc, hxc⟩
      exact hcbytes c hc x hxc
  rw [b64decode_encode _ hfull, List.take_left' hiv, List.drop_left' hiv,
    toBlocks_flatten _ hclens,
    cbcDecrypt_cbcEncrypt E D hED hElen (toBlocks (pad 16 p)) iv hiv hblens,
    flatten_toBlocks]
  exact unpad_pad p

/-- C10 witness: the round trip at the identity block transform, the
all-zero IV, and the UTF-8 bytes of a concrete plaintext. -/
theorem C10_encrypt_decrypt_roundtrip_witness :
    decrypt id (encrypt id (List.replicate 16 0) [104, 105, 33]) =
      some [104, 105, 33] :=
  C10_encrypt_decrypt_roundtrip id id (List.replicate 16 0) [104, 105, 33]
    (fun _ _ => rfl) (fun _ h => h) (fun _ _ h => h) (by decide) (by decide)
    (by decide)

end GestioneEventi
